import Mathlib

/-!
Verification development for `auto_barnet_restock.py`.

The pure data-processing and decision logic of the script is shallowly
embedded: spreadsheet cells become an inductive `Cell` type, the pandas
pipeline of `clean_and_reduce` becomes a chain of list-processing functions,
the notification branch of `main` becomes `decideNotification`, and the
Playwright candidate-fallback helpers `_first_visible` / `click_apply`
become functions over abstract locator outcomes.  String manipulation is
implemented structurally over `List Char` so that every definition can be
evaluated by the kernel on concrete inputs.
-/

set_option autoImplicit false

namespace Barnet

/-- Cell values of the raw spreadsheet, as pandas presents them after
`read_excel`: a missing value (NaN), a string, or an integer.  (Claims under
verification never depend on float-valued cells; fractional numbers enter
only through strings such as `"12.7"`.) -/
inductive Cell where
  | empty
  | str (s : String)
  | int (n : Int)
  deriving DecidableEq, Repr

/-- Python `str()` of a cell as pandas' `astype(str)` renders it: NaN prints
as `"nan"`, strings print themselves, ints print in decimal. -/
def pyStr : Cell → String
  | .empty => "nan"
  | .str s => s
  | .int n => toString n

/-- Test for a missing value, mirroring pandas `isna`. -/
def Cell.isNa : Cell → Bool
  | .empty => true
  | _ => false

/-! ### Structural string helpers (Python `strip` / `lower` / `startswith` …) -/

/-- Python `str.strip()`: drop leading and trailing whitespace. -/
def pyStrip (s : String) : String :=
  ⟨((s.toList.dropWhile Char.isWhitespace).reverse.dropWhile Char.isWhitespace).reverse⟩

/-- Python `str.lower()` restricted to ASCII, which covers every label the
script compares. -/
def pyLower (s : String) : String :=
  ⟨s.toList.map Char.toLower⟩

/-- Python `str.startswith(pat)`. -/
def pyStartsWith (s pat : String) : Bool :=
  pat.toList.isPrefixOf s.toList

/-- Whether `pat` occurs as a contiguous substring of `s`. -/
def strContainsSub (s pat : String) : Bool :=
  s.toList.tails.any (fun t => pat.toList.isPrefixOf t)

/-- Remove every occurrence of the characters `'$'` and `','` from a string:
the effect of `x.replace("$", "").replace(",", "")` in `to_num`. -/
def stripMoney (s : String) : String :=
  ⟨s.toList.filter (fun c => !(c == '$' || c == ','))⟩

/-! ### Numeric parsing (`pd.to_numeric`) and Sold QTY coercion -/

/-- Sign-magnitude decimal literal produced by numeric parsing: a sign, an
integer part, and fractional digits `frac` over `10 ^ fracLen`.  Mirrors the
decimal literals `pd.to_numeric` accepts on this data (scientific notation
never occurs in the report and is not modelled). -/
structure PyNum where
  neg : Bool
  ip : Nat
  frac : Nat
  fracLen : Nat
  deriving DecidableEq, Repr

/-- Rational value denoted by a parsed decimal literal. -/
def PyNum.toRat (p : PyNum) : ℚ :=
  (cond p.neg (-1) 1) * ((p.ip : ℚ) + (p.frac : ℚ) / (10 : ℚ) ^ p.fracLen)

/-- Digits-to-number accumulation for a decimal digit list. -/
def digitsToNat (l : List Char) : Nat :=
  l.foldl (fun acc c => acc * 10 + (c.toNat - 48)) 0

/-- Split a character list at every `'.'`. -/
def splitDot : List Char → List (List Char)
  | [] => [[]]
  | c :: rest =>
    if c = '.' then [] :: splitDot rest
    else
      match splitDot rest with
      | [] => [[c]]
      | g :: gs => (c :: g) :: gs

/-- ASCII decimal digit test (codepoints 48–57). -/
def isDigitCh (c : Char) : Bool :=
  48 ≤ c.toNat && c.toNat ≤ 57

/-- Parse an unsigned decimal literal: `digits`, `digits.digits`, `digits.`
or `.digits` (at least one digit overall), as Python number parsing accepts. -/
def parseUnsigned (l : List Char) : Option (Nat × Nat × Nat) :=
  match splitDot l with
  | [a] =>
    if a ≠ [] ∧ a.all isDigitCh then some (digitsToNat a, 0, 0) else none
  | [a, b] =>
    if (a.all isDigitCh ∧ b.all isDigitCh) ∧ a.length + b.length ≠ 0 then
      some (digitsToNat a, digitsToNat b, b.length)
    else none
  | _ => none

/-- Parse an optionally signed decimal literal. -/
def parseNum (s : String) : Option PyNum :=
  match s.toList with
  | [] => none
  | c :: rest =>
    if c = '-' then (parseUnsigned rest).map (fun t => ⟨true, t.1, t.2.1, t.2.2⟩)
    else if c = '+' then
      (parseUnsigned rest).map (fun t => ⟨false, t.1, t.2.1, t.2.2⟩)
    else (parseUnsigned (c :: rest)).map (fun t => ⟨false, t.1, t.2.1, t.2.2⟩)

/-- Embed an integer cell value as a parsed number. -/
def pyNumOfInt (n : Int) : PyNum :=
  if n < 0 then ⟨true, (-n).toNat, 0, 0⟩ else ⟨false, n.toNat, 0, 0⟩

/-- The `to_num` helper of `clean_and_reduce`: on strings, strip `$` and `,`
and whitespace, then parse (`errors="coerce"` makes failures `None`); ints
pass through; NaN stays missing. -/
def to_num : Cell → Option PyNum
  | .empty => none
  | .int n => some (pyNumOfInt n)
  | .str s => parseNum (pyStrip (stripMoney s))

/-- Truncation toward zero of a parsed decimal, as numpy `astype(int)`
performs on the parsed value: the fractional digits are discarded. -/
def pyTrunc (p : PyNum) : Int :=
  if p.neg then -(p.ip : Int) else (p.ip : Int)

/-- Truncation toward zero of a rational, the reference meaning of
`astype(int)` on a float value. -/
def ratTruncInt (q : ℚ) : Int :=
  if q < 0 then -⌊-q⌋ else ⌊q⌋

/-- Coercion applied to every `Sold QTY` cell:
`prod["Sold QTY"].apply(to_num).fillna(0).astype(int)`. -/
def coerceSoldQty (c : Cell) : Int :=
  match to_num c with
  | none => 0
  | some p => pyTrunc p

/-! ### Header detection (`clean_and_reduce`, step 1) -/

/-- Labels a header row must cover (the `REQUIRED` list of the script). -/
def REQUIRED : List String :=
  ["SKU", "Description", "Category", "Group", "UOM", "Sold QTY"]

/-- The five canonical output columns (the list checked at line 338 and used
for the empty fallback document). -/
def CANON5 : List String :=
  ["SKU", "Description", "Category", "UOM", "Sold QTY"]

/-- Whether a raw row's stringified, stripped cell values cover every
required label case-insensitively, in any column order. -/
def rowCovers (row : List Cell) : Bool :=
  REQUIRED.all (fun h =>
    row.any (fun v => pyLower h == pyLower (pyStrip (pyStr v))))

/-- Index of the first row satisfying a condition, if any. -/
def firstCoverIdx : List (List Cell) → Option Nat
  | [] => none
  | r :: rs => if rowCovers r then some 0 else (firstCoverIdx rs).map (· + 1)

/-- Header detection: scan the first `min 40 len` rows for the first one
covering all required labels; fall back to row 0. -/
def headerIdx (table : List (List Cell)) : Nat :=
  (firstCoverIdx (table.take 40)).getD 0

/-! ### Column normalization (step 2) -/

/-- The alias map of the script, in its (insertion-ordered) iteration order. -/
def ALIASES : List (String × String) :=
  [("Sold Qty", "Sold QTY"), ("Qty Sold", "Sold QTY"), ("Unit", "UOM")]

/-- Apply the alias renames in order; a rename fires only when the alias is
present and the canonical name is not. -/
def applyAliases (cols : List String) : List String :=
  ALIASES.foldl
    (fun cs kv =>
      if cs.contains kv.1 ∧ ¬ cs.contains kv.2 then
        cs.map (fun c => if c = kv.1 then kv.2 else c)
      else cs)
    cols

/-- Column names of the re-read frame: the detected header row, stringified
and stripped, after aliasing. -/
def rawCols (table : List (List Cell)) : List String :=
  applyAliases ((table.getD (headerIdx table) []).map (fun c => pyStrip (pyStr c)))

/-- Canonical columns still missing after header detection and aliasing. -/
def missingCols (table : List (List Cell)) : List String :=
  CANON5.filter (fun c => !(rawCols table).contains c)

/-- Data rows of the frame: everything below the header row. -/
def dataRows (table : List (List Cell)) : List (List Cell) :=
  table.drop (headerIdx table + 1)

/-- Cell of a row under a named column: position of the first column with
that name, missing cells padded as NaN (pandas alignment). -/
def getCol (cols : List String) (row : List Cell) (name : String) : Cell :=
  match cols.findIdx? (fun c => c == name) with
  | some i => row.getD i .empty
  | none => .empty

/-! ### Row filtering (step 3) -/

/-- The regex `^[A-Z].* - .*$` under `re.search` semantics: an optional
final newline may sit after the match, the matched text itself contains no
newline, starts with an ASCII capital and contains `" - "`. -/
def regexSectionHeader (s : String) : Bool :=
  let l := s.toList
  let core := if l.getLast? = some '\n' then l.dropLast else l
  match core with
  | [] => false
  | c :: _ =>
    c.isUpper && !core.contains '\n' && strContainsSub ⟨core⟩ " - "

/-- Stringified, stripped SKU cell of a row
(`df["SKU"].astype(str).str.strip()`). -/
def skuStr (cols : List String) (row : List Cell) : String :=
  pyStrip (pyStr (getCol cols row "SKU"))

/-- The drop mask `is_blank | is_total | is_section_header` of lines
344–349. -/
def isDroppedRow (cols : List String) (row : List Cell) : Bool :=
  let s := skuStr cols row
  ((s == "" || s == "nan") || pyStartsWith s "Total")
    || (regexSectionHeader s && (getCol cols row "Description").isNa)

/-- Candidate product rows: the rows surviving the drop mask
(`prod = df[~(is_blank | is_total | is_section_header)]`). -/
def candidateRows (cols : List String) (rows : List (List Cell)) : List (List Cell) :=
  rows.filter (fun r => !isDroppedRow cols r)

/-! ### Per-row coercion (step 4) and the product row set -/

/-- The `clean_sku` helper: whole-valued floats print as ints (no float
cells arise in the claims' model), other values as stripped text. -/
def clean_sku (c : Cell) : String :=
  match c with
  | .int n => toString n
  | other => pyStrip (pyStr other)

/-- Validated product row extracted from the frame. -/
structure ProdRow where
  sku : String
  desc : Cell
  category : String
  uom : Cell
  qty : Int
  deriving DecidableEq, Repr

/-- Build a `ProdRow` from a raw row: SKU cleaned, Category stringified and
stripped, Sold QTY coerced. -/
def mkRow (cols : List String) (row : List Cell) : ProdRow :=
  { sku := clean_sku (getCol cols row "SKU")
    desc := getCol cols row "Description"
    category := pyStrip (pyStr (getCol cols row "Category"))
    uom := getCol cols row "UOM"
    qty := coerceSoldQty (getCol cols row "Sold QTY") }

/-- The post-coercion, category-valid row set: drop-mask filter, then the
`Category.notna()` guard, per-row coercion, then the `Category != ""`
guard. -/
def prodRows (table : List (List Cell)) : List ProdRow :=
  let cols := rawCols table
  (((candidateRows cols (dataRows table)).filter
      (fun r => !(getCol cols r "Category").isNa)).map (mkRow cols)).filter
    (fun r => !(r.category == ""))

/-! ### Grouping (step 5) -/

/-- First-seen deduplication with an accumulator of already-seen keys. -/
def firstSeenAux (seen : List String) : List String → List String
  | [] => []
  | c :: rest =>
    if seen.contains c then firstSeenAux seen rest
    else c :: firstSeenAux (c :: seen) rest

/-- Category keys in first-appearance order, the order produced by
`factorize` + stable sort + `groupby(sort=False)`. -/
def firstSeen (l : List String) : List String :=
  firstSeenAux [] l

/-- Grouping by category: keys in first-appearance order, each group keeping
the original relative row order (the effect of the stable sort by first-seen
category code followed by `groupby(..., sort=False)`). -/
def groupByCategory (rows : List ProdRow) : List (String × List ProdRow) :=
  (firstSeen (rows.map (·.category))).map
    (fun c => (c, rows.filter (fun r => r.category == c)))

/-! ### Rendering (step 6) and the transformation contract -/

/-- One rendered category section: category header, data rows, total line
value (`int(grp["Sold QTY"].sum())`). -/
structure GroupSection where
  category : String
  rows : List ProdRow
  total : Int
  deriving DecidableEq, Repr

/-- Claim-relevant content of the written workbook: either the header-only
fallback document (missing columns) or the grouped report sections. -/
inductive Document where
  | headerOnly (headers : List String)
  | grouped (sections : List GroupSection)
  deriving DecidableEq, Repr

/-- Render the grouped sections from the product row set. -/
def renderSections (rows : List ProdRow) : List GroupSection :=
  (groupByCategory rows).map (fun p => ⟨p.1, p.2, (p.2.map (·.qty)).sum⟩)

/-- The transformation `clean_and_reduce`: header detection, aliasing, the
missing-column short circuit (which writes only the canonical header row and
reports `(0, 0)` instead of raising), otherwise filtering, coercion,
grouping and rendering, returning the document together with
`(rows_total, rows_with_qty_gt0)`. -/
def clean_and_reduce (table : List (List Cell)) : Document × Nat × Nat :=
  if missingCols table ≠ [] then
    (.headerOnly CANON5, 0, 0)
  else
    (.grouped (renderSections (prodRows table)),
      (prodRows table).length,
      ((prodRows table).filter (fun r => 0 < r.qty)).length)

/-! ### Notification decision (`main`, lines 614–629) -/

/-- Outcome of the notification decision: an alert to the owner with a
reason, or the normal team notification. -/
inductive Outcome where
  | alert (reason : String)
  | normal
  deriving DecidableEq, Repr

/-- The decision branch of `main` over `(rows_total, rows_gt0)`.  The CI
flag only suppresses the send; it does not alter which branch is chosen. -/
def decideNotification (rows_total rows_gt0 : Nat) : Outcome :=
  if rows_total = 0 then .alert "No product rows found after cleaning."
  else if rows_gt0 = 0 then .alert "All products have Sold QTY = 0."
  else .normal

/-! ### Element resolver (`_first_visible`) -/

/-- Abstract outcome of querying one locator candidate: `isSome` is the
truthiness of the locator object itself, and `eval` is the combined result
of `count()` and `first.is_visible()`, which may raise (`.error`). -/
structure Locator where
  isSome : Bool
  eval : Except Unit (Nat × Bool)
  deriving Repr

/-- Whether a candidate succeeds: the locator is truthy and its evaluation
returns a nonzero match count with a visible first match. -/
def locSucceeds (l : Locator) : Bool :=
  l.isSome &&
    match l.eval with
    | .ok (n, vis) => n != 0 && vis
    | .error _ => false

/-- The `_first_visible` loop: try each candidate in order; a raising
candidate is skipped (`except: continue`); the first succeeding candidate's
index is returned (the code returns its `loc.first` handle), else `none`. -/
def first_visible : List Locator → Option Nat
  | [] => none
  | l :: ls =>
    match (if l.isSome then l.eval else .ok (0, false)) with
    | .error _ => (first_visible ls).map (· + 1)
    | .ok (n, vis) =>
      if n != 0 && vis then some 0 else (first_visible ls).map (· + 1)

/-! ### Apply step (`click_apply` and the Enter fallback in
`set_report_filters`) -/

/-- Abstract outcome of one Apply candidate: locator truthiness, the result
of `count()`, and the result of the scroll + click + wait sequence.  The UI
layer raises from `click` when the first match is not actionable (visible),
so a successful click entails a visible match. -/
structure ApplyCandidate where
  isSome : Bool
  count : Except Unit Nat
  click : Except Unit Unit
  deriving Repr

/-- Whether an Apply candidate is clicked successfully. -/
def applySucceeds (c : ApplyCandidate) : Bool :=
  c.isSome &&
    match c.count with
    | .ok n =>
      n != 0 &&
        match c.click with
        | .ok _ => true
        | .error _ => false
    | .error _ => false

/-- The `click_apply` loop: in priority order, a candidate with a truthy
locator and nonzero count is clicked; any exception (from `count` or from
the click sequence) moves on to the next candidate. -/
def clickApplyIdx : List ApplyCandidate → Option Nat
  | [] => none
  | c :: cs =>
    match (if c.isSome then c.count else .ok 0) with
    | .error _ => (clickApplyIdx cs).map (· + 1)
    | .ok n =>
      if n != 0 then
        match c.click with
        | .ok _ => some 0
        | .error _ => (clickApplyIdx cs).map (· + 1)
      else (clickApplyIdx cs).map (· + 1)

/-- Boolean result reported by `click_apply`. -/
def click_apply (cs : List ApplyCandidate) : Bool :=
  (clickApplyIdx cs).isSome

/-- Which action the Apply step of `set_report_filters` ends up taking. -/
inductive ApplyAction where
  | clickedCandidate (i : Nat)
  | pressedEnter
  deriving DecidableEq, Repr

/-- The Apply phase of `set_report_filters` (lines 280–288): click the first
workable candidate, else press Enter on the page and wait.  The Enter
press's own outcome is swallowed by `try/except: pass` and never inspected,
so the returned action does not depend on it. -/
def applyPhase (cs : List ApplyCandidate) (enterOutcome : Except Unit Unit) :
    ApplyAction :=
  match clickApplyIdx cs with
  | some i => .clickedCandidate i
  | none =>
    match enterOutcome with
    | .ok _ => .pressedEnter
    | .error _ => .pressedEnter

/-! ### Generic first-success characterization -/

/-- Index of the first element satisfying `p`, the shared shape of the
candidate-fallback loops. -/
def firstIdxSat {α : Type} (p : α → Bool) : List α → Option Nat
  | [] => none
  | a :: as => if p a then some 0 else (firstIdxSat p as).map (· + 1)

/-! ### Lemmas: first-success loops -/

theorem map_succ_eq_some_succ_iff {o : Option Nat} {n : Nat} :
    o.map (· + 1) = some (n + 1) ↔ o = some n := by
  cases o <;> simp

theorem firstIdxSat_eq_some_iff {α : Type} (p : α → Bool) (dfl : α)
    (hdfl : p dfl = false) :
    ∀ (l : List α) (i : Nat),
      firstIdxSat p l = some i ↔
        (p (l.getD i dfl) = true ∧ ∀ j, j < i → p (l.getD j dfl) = false) := by
  intro l
  induction l with
  | nil => intro i; simp [firstIdxSat, hdfl]
  | cons a as ih =>
    intro i
    by_cases hpa : p a = true
    · simp only [firstIdxSat, hpa, if_true]
      cases i with
      | zero => simp [hpa]
      | succ n =>
        constructor
        · intro h; exact absurd h (by simp)
        · rintro ⟨-, hmin⟩
          exact absurd hpa (by simpa using hmin 0 (Nat.succ_pos n))
    · have hpa' : p a = false := by simpa using hpa
      simp only [firstIdxSat, hpa', Bool.false_eq_true, if_false]
      cases i with
      | zero =>
        constructor
        · intro h
          rcases Option.map_eq_some'.1 h with ⟨m, -, hm⟩
          exact absurd hm (by omega)
        · rintro ⟨h0, -⟩
          rw [List.getD_cons_zero] at h0
          exact absurd h0 (by simp [hpa'])
      | succ n =>
        rw [map_succ_eq_some_succ_iff, ih n]
        constructor
        · rintro ⟨hn, hmin⟩
          refine ⟨by simpa using hn, ?_⟩
          intro j hj
          cases j with
          | zero => simpa using hpa'
          | succ k =>
            rw [List.getD_cons_succ]
            exact hmin k (by omega)
        · rintro ⟨hn, hmin⟩
          refine ⟨by simpa using hn, ?_⟩
          intro j hj
          have := hmin (j + 1) (by omega)
          simpa using this

theorem firstIdxSat_eq_none_iff {α : Type} (p : α → Bool) (dfl : α)
    (hdfl : p dfl = false) :
    ∀ l : List α,
      firstIdxSat p l = none ↔ ∀ i, p (l.getD i dfl) = false := by
  intro l
  induction l with
  | nil => simp [firstIdxSat, hdfl]
  | cons a as ih =>
    by_cases hpa : p a = true
    · simp only [firstIdxSat, hpa, if_true]
      constructor
      · intro h; exact absurd h (by simp)
      · intro h
        exact absurd hpa (by simpa using h 0)
    · have hpa' : p a = false := by simpa using hpa
      simp only [firstIdxSat, hpa', Bool.false_eq_true, if_false,
        Option.map_eq_none']
      rw [ih]
      constructor
      · intro h i
        cases i with
        | zero => simpa using hpa'
        | succ k => simpa using h k
      · intro h i
        simpa using h (i + 1)

theorem first_visible_eq_firstIdxSat (ls : List Locator) :
    first_visible ls = firstIdxSat locSucceeds ls := by
  induction ls with
  | nil => rfl
  | cons l tl ih =>
    rcases l with ⟨s, ev⟩
    cases s
    · simp [first_visible, firstIdxSat, locSucceeds, ih]
    · cases ev with
      | error e => simp [first_visible, firstIdxSat, locSucceeds, ih]
      | ok v =>
        rcases v with ⟨n, vis⟩
        simp [first_visible, firstIdxSat, locSucceeds, ih]

theorem clickApplyIdx_eq_firstIdxSat (cs : List ApplyCandidate) :
    clickApplyIdx cs = firstIdxSat applySucceeds cs := by
  induction cs with
  | nil => rfl
  | cons c tl ih =>
    rcases c with ⟨s, cnt, clk⟩
    cases s
    · simp [clickApplyIdx, firstIdxSat, applySucceeds, ih]
    · cases cnt with
      | error e => simp [clickApplyIdx, firstIdxSat, applySucceeds, ih]
      | ok n =>
        by_cases hn : n = 0
        · simp [clickApplyIdx, firstIdxSat, applySucceeds, ih, hn]
        · cases clk with
          | error e =>
            simp [clickApplyIdx, firstIdxSat, applySucceeds, ih, hn]
          | ok u =>
            simp [clickApplyIdx, firstIdxSat, applySucceeds, ih, hn]

theorem firstCoverIdx_eq_firstIdxSat (rs : List (List Cell)) :
    firstCoverIdx rs = firstIdxSat rowCovers rs := by
  induction rs with
  | nil => rfl
  | cons r tl ih => simp [firstCoverIdx, firstIdxSat, ih]

/-! ### Claim C1: notification decision -/

/-- C1: the notification decision is a pure function of the
`(rows_total, rows_with_qty_gt0)` pair with three mutually exclusive
outcomes: `rows_total = 0` selects the "no product rows found after
cleaning" alert, `rows_total > 0 ∧ rows_gt0 = 0` selects the "all products
have zero sold quantity" alert (worded `"All products have Sold QTY = 0."`
in the code), every other pair selects the normal team notification;
`(0, 0)` and `(5, 0)` take the alert path and `(5, 3)` the normal path, and
the three outcomes are pairwise distinct, so exactly one is selected for
every pair. -/
theorem claim_C1_decision_trichotomy :
    (∀ rt rq : Nat, rt = 0 →
        decideNotification rt rq = .alert "No product rows found after cleaning.") ∧
    (∀ rt rq : Nat, rt ≠ 0 → rq = 0 →
        decideNotification rt rq = .alert "All products have Sold QTY = 0.") ∧
    (∀ rt rq : Nat, rt ≠ 0 → rq ≠ 0 → decideNotification rt rq = .normal) ∧
    decideNotification 0 0 = .alert "No product rows found after cleaning." ∧
    decideNotification 5 0 = .alert "All products have Sold QTY = 0." ∧
    decideNotification 5 3 = .normal ∧
    (Outcome.alert "No product rows found after cleaning." ≠
        .alert "All products have Sold QTY = 0." ∧
      ∀ r : String, Outcome.alert r ≠ .normal) := by
  refine ⟨?_, ?_, ?_, by decide, by decide, by decide, by decide, ?_⟩
  · intro rt rq h; simp [decideNotification, h]
  · intro rt rq h h0; simp [decideNotification, h, h0]
  · intro rt rq h h0; simp [decideNotification, h, h0]
  · intro r h; exact Outcome.noConfusion h

/-- Witness for C1: the three guarded branches applied at concrete pairs. -/
theorem claim_C1_decision_trichotomy_witness :
    decideNotification 0 7 = .alert "No product rows found after cleaning." ∧
    decideNotification 4 0 = .alert "All products have Sold QTY = 0." ∧
    decideNotification 4 7 = .normal :=
  ⟨claim_C1_decision_trichotomy.1 0 7 rfl,
   claim_C1_decision_trichotomy.2.1 4 0 (by decide) rfl,
   claim_C1_decision_trichotomy.2.2.1 4 7 (by decide) (by decide)⟩

/-! ### Claim C9: element resolver -/

/-- C9: `_first_visible`, over an ordered list of locator candidates,
returns the first candidate that is truthy, has at least one match, and
whose first match is visible, trying the candidates strictly in priority
order and short-circuiting on the first success; an exception raised while
evaluating one candidate is treated as "no match" for that candidate only
(the remaining candidates are still tried, nothing propagates — the
function is total); when no candidate succeeds the result is `none` rather
than an error. -/
theorem claim_C9_first_visible_resolution :
    (∀ l : Locator, locSucceeds l = true ↔
        l.isSome = true ∧ ∃ n : Nat, l.eval = .ok (n, true) ∧ n ≠ 0) ∧
    (∀ (ls : List Locator) (i : Nat),
        first_visible ls = some i ↔
          locSucceeds (ls.getD i ⟨false, .ok (0, false)⟩) = true ∧
            ∀ j, j < i → locSucceeds (ls.getD j ⟨false, .ok (0, false)⟩) = false) ∧
    (∀ ls : List Locator,
        first_visible ls = none ↔
          ∀ i, locSucceeds (ls.getD i ⟨false, .ok (0, false)⟩) = false) ∧
    (∀ (l : Locator) (ls : List Locator), l.eval = .error () →
        first_visible (l :: ls) = (first_visible ls).map (· + 1)) := by
  refine ⟨?_, ?_, ?_, ?_⟩
  · rintro ⟨s, ev⟩
    cases s
    · simp [locSucceeds]
    · cases ev with
      | error e => simp [locSucceeds]
      | ok v =>
        rcases v with ⟨n, vis⟩
        cases vis <;> simp [locSucceeds]
  · intro ls i
    rw [first_visible_eq_firstIdxSat]
    exact firstIdxSat_eq_some_iff locSucceeds ⟨false, .ok (0, false)⟩ rfl ls i
  · intro ls
    rw [first_visible_eq_firstIdxSat]
    exact firstIdxSat_eq_none_iff locSucceeds ⟨false, .ok (0, false)⟩ rfl ls
  · rintro ⟨s, ev⟩ ls h
    cases h
    cases s <;> rfl

/-- Witness for C9: a raising first candidate is skipped and the visible
second candidate (index 1) is returned. -/
theorem claim_C9_first_visible_resolution_witness :
    first_visible
        [⟨true, .error ()⟩, ⟨true, .ok (2, true)⟩] =
      (first_visible [⟨true, .ok (2, true)⟩]).map (· + 1) ∧
    first_visible [⟨true, .error ()⟩, ⟨true, .ok (2, true)⟩] = some 1 :=
  ⟨claim_C9_first_visible_resolution.2.2.2 ⟨true, .error ()⟩
      [⟨true, .ok (2, true)⟩] rfl,
   (claim_C9_first_visible_resolution.2.1
        [⟨true, .error ()⟩, ⟨true, .ok (2, true)⟩] 1).2
    ⟨rfl, by
      intro j hj
      interval_cases j
      rfl⟩⟩

/-! ### Claim C10: Apply step with Enter fallback -/

/-- C10: `click_apply` tries the Apply candidates in priority order,
clicking the first workable one (truthy locator, nonzero count, successful
click — the UI layer raises on a non-visible target, so success entails a
visible match) and reporting success; when every candidate fails,
`set_report_filters` falls back to pressing Enter on the page, and the
fallback's own outcome is swallowed (`try/except: pass`), never verified:
the phase result is the same whatever the Enter press returns. -/
theorem claim_C10_apply_with_enter_fallback :
    (∀ c : ApplyCandidate, applySucceeds c = true ↔
        c.isSome = true ∧ ∃ n : Nat, c.count = .ok n ∧ n ≠ 0 ∧ c.click = .ok ()) ∧
    (∀ (cs : List ApplyCandidate) (i : Nat),
        clickApplyIdx cs = some i ↔
          applySucceeds (cs.getD i ⟨false, .ok 0, .ok ()⟩) = true ∧
            ∀ j, j < i → applySucceeds (cs.getD j ⟨false, .ok 0, .ok ()⟩) = false) ∧
    (∀ cs : List ApplyCandidate, click_apply cs = true ↔ clickApplyIdx cs ≠ none) ∧
    (∀ (cs : List ApplyCandidate) (e : Except Unit Unit),
        applyPhase cs e = .pressedEnter ↔ clickApplyIdx cs = none) ∧
    (∀ (cs : List ApplyCandidate) (i : Nat) (e : Except Unit Unit),
        applyPhase cs e = .clickedCandidate i ↔ clickApplyIdx cs = some i) ∧
    (∀ (cs : List ApplyCandidate) (e e' : Except Unit Unit),
        applyPhase cs e = applyPhase cs e') := by
  refine ⟨?_, ?_, ?_, ?_, ?_, ?_⟩
  · rintro ⟨s, cnt, clk⟩
    cases s
    · simp [applySucceeds]
    · cases cnt with
      | error e => simp [applySucceeds]
      | ok n =>
        cases clk with
        | error e => simp [applySucceeds]
        | ok u => simp [applySucceeds]
  · intro cs i
    rw [clickApplyIdx_eq_firstIdxSat]
    exact firstIdxSat_eq_some_iff applySucceeds ⟨false, .ok 0, .ok ()⟩ rfl cs i
  · intro cs
    unfold click_apply
    cases h : clickApplyIdx cs <;> simp [h]
  · intro cs e
    unfold applyPhase
    cases h : clickApplyIdx cs
    · cases e <;> simp
    · simp
  · intro cs i e
    unfold applyPhase
    cases h : clickApplyIdx cs
    · cases e <;> simp
    · simp
  · intro cs e e'
    unfold applyPhase
    cases clickApplyIdx cs
    · cases e <;> cases e' <;> rfl
    · rfl

/-- Witness for C10: with no workable candidate the phase presses Enter for
either Enter outcome, and a workable second candidate is clicked. -/
theorem claim_C10_apply_with_enter_fallback_witness :
    applyPhase [⟨true, .ok 0, .ok ()⟩] (.error ()) =
      applyPhase [⟨true, .ok 0, .ok ()⟩] (.ok ()) ∧
    (applyPhase [⟨true, .ok 0, .ok ()⟩] (.error ()) = .pressedEnter ↔
      clickApplyIdx [⟨true, .ok 0, .ok ()⟩] = none) ∧
    clickApplyIdx [⟨true, .error (), .ok ()⟩, ⟨true, .ok 3, .ok ()⟩] = some 1 :=
  ⟨claim_C10_apply_with_enter_fallback.2.2.2.2.2
      [⟨true, .ok 0, .ok ()⟩] (.error ()) (.ok ()),
   claim_C10_apply_with_enter_fallback.2.2.2.1
      [⟨true, .ok 0, .ok ()⟩] (.error ()),
   (claim_C10_apply_with_enter_fallback.2.1
        [⟨true, .error (), .ok ()⟩, ⟨true, .ok 3, .ok ()⟩] 1).2
    ⟨rfl, by
      intro j hj
      interval_cases j
      rfl⟩⟩

/-! ### Claim C2: header detection -/

theorem getD_take_eq {α : Type} (l : List α) (d : α) (n j : Nat) (hj : j < n) :
    (l.take n).getD j d = l.getD j d := by
  simp [List.getD_eq_getElem?_getD, List.getElem?_take, hj]

/-- C2 fails as stated: detection returns the first covering row, so a table
whose rows 0 and 1 both cover all required labels sends header detection to
row 0, not to the covering row index 1 the claim's universal demands. -/
theorem claim_C2_counterexample :
    rowCovers
        ([[.str "SKU", .str "Description", .str "Category", .str "Group",
           .str "UOM", .str "Sold QTY"],
          [.str "SKU", .str "Description", .str "Category", .str "Group",
           .str "UOM", .str "Sold QTY"]].getD 1 []) = true ∧
    (1 : Nat) < 40 ∧
    headerIdx
        [[.str "SKU", .str "Description", .str "Category", .str "Group",
          .str "UOM", .str "Sold QTY"],
         [.str "SKU", .str "Description", .str "Category", .str "Group",
          .str "UOM", .str "Sold QTY"]] = 0 := by
  decide

/-- C2 (amended): header detection scans at most the first 40 rows and
selects the first row whose trimmed cell values cover all six required
labels case-insensitively in any column order, falling back to row index 0
when no row in the scan window covers them; consequently detection returns
`h` for every table in which row `h < 40` covers all labels and no earlier
row does. -/
theorem claim_C2_header_detection :
    (∀ (table : List (List Cell)) (h : Nat), h < 40 → h < table.length →
        rowCovers (table.getD h []) = true →
        (∀ j, j < h → rowCovers (table.getD j []) = false) →
        headerIdx table = h) ∧
    (∀ table : List (List Cell),
        (∀ j, j < min 40 table.length → rowCovers (table.getD j []) = false) →
        headerIdx table = 0) := by
  constructor
  · intro table h h40 hlen hcov hmin
    have hsome : firstIdxSat rowCovers (table.take 40) = some h := by
      refine (firstIdxSat_eq_some_iff rowCovers [] (by decide)
        (table.take 40) h).2 ⟨?_, ?_⟩
      · rw [getD_take_eq table [] 40 h h40]; exact hcov
      · intro j hj
        rw [getD_take_eq table [] 40 j (lt_trans hj h40)]
        exact hmin j hj
    unfold headerIdx
    rw [firstCoverIdx_eq_firstIdxSat, hsome]
    rfl
  · intro table hnone
    have hnone' : firstIdxSat rowCovers (table.take 40) = none := by
      refine (firstIdxSat_eq_none_iff rowCovers [] (by decide)
        (table.take 40)).2 ?_
      intro i
      by_cases hi : i < min 40 table.length
      · rw [getD_take_eq table [] 40 i (lt_of_lt_of_le hi (Nat.min_le_left _ _))]
        exact hnone i hi
      · have : (table.take 40).length ≤ i := by
          rw [List.length_take]; omega
        rw [List.getD_eq_default _ _ this]
        decide
    unfold headerIdx
    rw [firstCoverIdx_eq_firstIdxSat, hnone']
    rfl

/-- Witness for C2: a covering row at index 1 below a junk row is selected,
and a table with no covering row falls back to row 0. -/
theorem claim_C2_header_detection_witness :
    headerIdx
        [[.str "junk"],
         [.str "sku", .str "DESCRIPTION", .str "Category", .str "Group",
          .str "UOM", .str "Sold Qty "]] = 1 ∧
    headerIdx [[.str "junk"]] = 0 :=
  ⟨claim_C2_header_detection.1
      [[.str "junk"],
       [.str "sku", .str "DESCRIPTION", .str "Category", .str "Group",
        .str "UOM", .str "Sold Qty "]] 1
      (by decide) (by decide) (by decide)
      (by intro j hj; interval_cases j; decide),
   claim_C2_header_detection.2 [[.str "junk"]]
      (by
        intro j hj
        have hj1 : j < 1 := lt_of_lt_of_le hj (Nat.min_le_right _ _)
        interval_cases j
        decide)⟩

/-! ### Claim C3: row filtering -/

theorem Cell.isNa_eq_true_iff (c : Cell) : c.isNa = true ↔ c = .empty := by
  cases c <;> simp [Cell.isNa]

/-- C3: a row of the frame is excluded from the candidate product set if and
only if its stringified, stripped SKU cell is blank or the literal
missing-value marker `"nan"`, or starts with `"Total"`, or matches the
section-header pattern (capitalized text containing `" - "`) while its
Description cell is the missing value; every other row is kept as a
candidate product row. -/
theorem claim_C3_row_filtering :
    ∀ (cols : List String) (rows : List (List Cell)) (r : List Cell),
      r ∈ candidateRows cols rows ↔
        r ∈ rows ∧
          ¬ (skuStr cols r = "" ∨ skuStr cols r = "nan" ∨
              pyStartsWith (skuStr cols r) "Total" = true ∨
              (regexSectionHeader (skuStr cols r) = true ∧
                getCol cols r "Description" = .empty)) := by
  intro cols rows r
  have hiff : isDroppedRow cols r = true ↔
      (skuStr cols r = "" ∨ skuStr cols r = "nan" ∨
        pyStartsWith (skuStr cols r) "Total" = true ∨
        (regexSectionHeader (skuStr cols r) = true ∧
          getCol cols r "Description" = .empty)) := by
    simp only [isDroppedRow, Bool.or_eq_true, Bool.and_eq_true, beq_iff_eq,
      Cell.isNa_eq_true_iff]
    tauto
  rw [candidateRows, List.mem_filter, Bool.not_eq_true', Bool.eq_false_iff]
  exact and_congr_right fun _ => not_congr hiff

/-! ### Lemmas: decimal parsing bounds and truncation -/

theorem digitsToNat_aux_lt (l : List Char) (acc : Nat)
    (h : l.all isDigitCh = true) :
    l.foldl (fun a c => a * 10 + (c.toNat - 48)) acc <
      (acc + 1) * 10 ^ l.length := by
  induction l generalizing acc with
  | nil => simp
  | cons c cs ih =>
    rw [List.all_cons, Bool.and_eq_true] at h
    have hd9 : c.toNat - 48 ≤ 9 := by
      have := h.1
      simp only [isDigitCh, Bool.and_eq_true, decide_eq_true_eq] at this
      omega
    have hb := ih (acc * 10 + (c.toNat - 48)) h.2
    calc (c :: cs).foldl (fun a c => a * 10 + (c.toNat - 48)) acc
        = cs.foldl (fun a c => a * 10 + (c.toNat - 48))
            (acc * 10 + (c.toNat - 48)) := rfl
      _ < (acc * 10 + (c.toNat - 48) + 1) * 10 ^ cs.length := hb
      _ ≤ ((acc + 1) * 10) * 10 ^ cs.length := by
            apply Nat.mul_le_mul_right
            omega
      _ = (acc + 1) * 10 ^ (c :: cs).length := by
            rw [List.length_cons, pow_succ]
            ring

theorem digitsToNat_lt (l : List Char) (h : l.all isDigitCh = true) :
    digitsToNat l < 10 ^ l.length := by
  have h0 := digitsToNat_aux_lt l 0 h
  rw [zero_add, one_mul] at h0
  exact h0

theorem parseUnsigned_frac_lt (l : List Char) (a f k : Nat)
    (h : parseUnsigned l = some (a, f, k)) : f < 10 ^ k := by
  unfold parseUnsigned at h
  split at h
  · split at h
    · simp only [Option.some.injEq, Prod.mk.injEq] at h
      obtain ⟨-, hf, hk⟩ := h
      rw [← hf, ← hk]
      norm_num
    · exact absurd h (by simp)
  · split at h
    · rename_i x y heq hcond
      simp only [Option.some.injEq, Prod.mk.injEq] at h
      obtain ⟨-, hf, hk⟩ := h
      rw [← hf, ← hk]
      exact digitsToNat_lt y hcond.1.2
    · exact absurd h (by simp)
  · exact absurd h (by simp)

theorem parseSigned_frac_lt (c : Char) (rest : List Char) (p : PyNum)
    (h : (if c = '-' then
            (parseUnsigned rest).map
              (fun t => PyNum.mk true t.1 t.2.1 t.2.2)
          else if c = '+' then
            (parseUnsigned rest).map
              (fun t => PyNum.mk false t.1 t.2.1 t.2.2)
          else
            (parseUnsigned (c :: rest)).map
              (fun t => PyNum.mk false t.1 t.2.1 t.2.2)) = some p) :
    p.frac < 10 ^ p.fracLen := by
  by_cases h1 : c = '-'
  · rw [if_pos h1] at h
    rcases Option.map_eq_some'.1 h with ⟨t, ht, hp⟩
    rw [← hp]
    exact parseUnsigned_frac_lt rest t.1 t.2.1 t.2.2 (by rw [ht])
  · rw [if_neg h1] at h
    by_cases h2 : c = '+'
    · rw [if_pos h2] at h
      rcases Option.map_eq_some'.1 h with ⟨t, ht, hp⟩
      rw [← hp]
      exact parseUnsigned_frac_lt rest t.1 t.2.1 t.2.2 (by rw [ht])
    · rw [if_neg h2] at h
      rcases Option.map_eq_some'.1 h with ⟨t, ht, hp⟩
      rw [← hp]
      exact parseUnsigned_frac_lt (c :: rest) t.1 t.2.1 t.2.2 (by rw [ht])

theorem parseNum_frac_lt (s : String) (p : PyNum)
    (h : parseNum s = some p) : p.frac < 10 ^ p.fracLen := by
  unfold parseNum at h
  split at h
  · exact absurd h (by simp)
  · rename_i c rest heq
    exact parseSigned_frac_lt c rest p h

theorem to_num_frac_lt (c : Cell) (p : PyNum) (h : to_num c = some p) :
    p.frac < 10 ^ p.fracLen := by
  cases c with
  | empty => exact absurd h (by simp [to_num])
  | int n =>
    have hp : p = pyNumOfInt n := (Option.some.inj h).symm
    rw [hp]
    unfold pyNumOfInt
    split <;> simp
  | str s => exact parseNum_frac_lt _ p h

theorem pyTrunc_eq_ratTruncInt (p : PyNum) (hf : p.frac < 10 ^ p.fracLen) :
    pyTrunc p = ratTruncInt p.toRat := by
  set x : ℚ := (p.frac : ℚ) / (10 : ℚ) ^ p.fracLen with hx
  have hx0 : 0 ≤ x := by positivity
  have hx1 : x < 1 := by
    rw [hx, div_lt_one (by positivity)]
    calc (p.frac : ℚ) < ((10 ^ p.fracLen : ℕ) : ℚ) := by exact_mod_cast hf
      _ = (10 : ℚ) ^ p.fracLen := by push_cast; ring
  have hsum0 : (0 : ℚ) ≤ (p.ip : ℚ) + x := by positivity
  have hfl : ⌊(p.ip : ℚ) + x⌋ = (p.ip : ℤ) := by
    rw [add_comm]
    have h1 : ((p.ip : ℤ) : ℚ) = (p.ip : ℚ) := by push_cast; ring
    rw [← h1, Int.floor_add_int x (p.ip : ℤ),
      Int.floor_eq_zero_iff.2 ⟨hx0, hx1⟩, zero_add]
  cases hneg : p.neg with
  | false =>
    have hpt : pyTrunc p = (p.ip : ℤ) := by
      rw [pyTrunc, hneg]
      simp
    have htr : p.toRat = (p.ip : ℚ) + x := by
      rw [hx]
      simp [PyNum.toRat, hneg]
    rw [hpt, ratTruncInt, htr, if_neg (not_lt.2 hsum0), hfl]
  | true =>
    have hpt : pyTrunc p = -(p.ip : ℤ) := by
      rw [pyTrunc, hneg]
      simp
    have htr : p.toRat = -((p.ip : ℚ) + x) := by
      rw [hx]
      simp [PyNum.toRat, hneg]
    rw [hpt, ratTruncInt, htr]
    by_cases hq : -((p.ip : ℚ) + x) < 0
    · rw [if_pos hq, neg_neg, hfl]
    · rw [if_neg hq]
      have hz : (p.ip : ℚ) + x = 0 :=
        le_antisymm (by linarith [not_lt.1 hq]) hsum0
      have hip : (p.ip : ℚ) = 0 := by
        have hx' : (0 : ℚ) ≤ (p.ip : ℚ) := by positivity
        linarith
      have hipz : (p.ip : ℤ) = 0 := by exact_mod_cast hip
      rw [hz, neg_zero, Int.floor_zero, hipz, neg_zero]

/-! ### Claim C4: Sold QTY coercion -/

/-- C4: Sold QTY coercion strips `"$"` and `","` from string inputs, parses
the result as a number, coerces unparsable values to 0, and truncates the
parsed value toward zero to an integer; it is the identity on already-clean
integers, sends `"$1,234"` to `1234`, and sends `"abc"` to `0`. -/
theorem claim_C4_sold_qty_coercion :
    (∀ n : Int, coerceSoldQty (.int n) = n) ∧
    coerceSoldQty (.str "$1,234") = 1234 ∧
    coerceSoldQty (.str "abc") = 0 ∧
    (∀ c : Cell, to_num c = none → coerceSoldQty c = 0) ∧
    (∀ (c : Cell) (p : PyNum), to_num c = some p →
        coerceSoldQty c = ratTruncInt p.toRat) := by
  refine ⟨?_, by decide, by decide, ?_, ?_⟩
  · intro n
    by_cases hn : n < 0
    · have h0 : (0 : Int) ≤ -n := by omega
      simp [coerceSoldQty, to_num, pyNumOfInt, pyTrunc, hn,
        Int.toNat_of_nonneg h0]
    · have h0 : (0 : Int) ≤ n := by omega
      simp [coerceSoldQty, to_num, pyNumOfInt, pyTrunc, hn,
        Int.toNat_of_nonneg h0]
  · intro c h
    simp [coerceSoldQty, h]
  · intro c p h
    rw [coerceSoldQty, h]
    exact pyTrunc_eq_ratTruncInt p (to_num_frac_lt c p h)

/-- Witness for C4: the truncation clause applied to the parsed literal
`"7.9"` and the unparsable-input clause applied to `"abc-"`. -/
theorem claim_C4_sold_qty_coercion_witness :
    to_num (.str "7.9") = some ⟨false, 7, 9, 1⟩ ∧
    coerceSoldQty (.str "7.9") = ratTruncInt (PyNum.toRat ⟨false, 7, 9, 1⟩) ∧
    to_num (.str "abc-") = none ∧
    coerceSoldQty (.str "abc-") = 0 :=
  ⟨by decide,
   claim_C4_sold_qty_coercion.2.2.2.2 (.str "7.9") ⟨false, 7, 9, 1⟩ (by decide),
   by decide,
   claim_C4_sold_qty_coercion.2.2.2.1 (.str "abc-") (by decide)⟩

/-! ### Claim C8: Sold QTY sign -/

/-- C8 fails as stated: a negative Sold QTY cell survives the pipeline with
its negative value — on this two-row table the single retained product row
carries Sold QTY `-5 < 0` into the rendered group, so not every produced
row has a non-negative quantity. -/
theorem claim_C8_counterexample :
    clean_and_reduce
        [[.str "SKU", .str "Description", .str "Category", .str "Group",
          .str "UOM", .str "Sold QTY"],
         [.int 1001, .str "Vodka 750ml", .str "Spirits", .str "G", .str "EA",
          .int (-5)]] =
      (.grouped [⟨"Spirits",
          [⟨"1001", .str "Vodka 750ml", "Spirits", .str "EA", -5⟩], -5⟩],
        1, 0) ∧
    (-5 : Int) < 0 := by
  decide

/-- C8 (amended): the coerced Sold QTY of a retained row is the parsed value
truncated to an integer, so it is non-negative whenever the source cell's
parsed numeric value is non-negative, and parse failures default to 0;
negative source values, however, survive as negative quantities. -/
theorem claim_C8_sold_qty_sign :
    (∀ (c : Cell) (p : PyNum), to_num c = some p → 0 ≤ p.toRat →
        0 ≤ coerceSoldQty c) ∧
    (∀ c : Cell, to_num c = none → coerceSoldQty c = 0) := by
  constructor
  · intro c p h hq
    rw [coerceSoldQty, h]
    show 0 ≤ pyTrunc p
    cases hneg : p.neg with
    | false =>
      have hpt : pyTrunc p = (p.ip : ℤ) := by
        rw [pyTrunc, hneg]
        simp
      rw [hpt]
      positivity
    | true =>
      have hx0 : (0 : ℚ) ≤ (p.frac : ℚ) / (10 : ℚ) ^ p.fracLen := by positivity
      have hip0 : (0 : ℚ) ≤ (p.ip : ℚ) := by positivity
      have htr : p.toRat =
          -((p.ip : ℚ) + (p.frac : ℚ) / (10 : ℚ) ^ p.fracLen) := by
        simp [PyNum.toRat, hneg]
      have hip : (p.ip : ℚ) = 0 := by
        rw [htr] at hq
        linarith
      have hipz : (p.ip : ℤ) = 0 := by exact_mod_cast hip
      have hpt : pyTrunc p = -(p.ip : ℤ) := by
        rw [pyTrunc, hneg]
        simp
      rw [hpt, hipz, neg_zero]
  · intro c h
    simp [coerceSoldQty, h]

/-- Witness for C8 (amended): the non-negativity clause applied to the
parsed cell `"$3"` and the default clause applied to the missing cell. -/
theorem claim_C8_sold_qty_sign_witness :
    to_num (.str "$3") = some ⟨false, 3, 0, 0⟩ ∧
    0 ≤ coerceSoldQty (.str "$3") ∧
    coerceSoldQty Cell.empty = 0 :=
  ⟨by decide,
   claim_C8_sold_qty_sign.1 (.str "$3") ⟨false, 3, 0, 0⟩ (by decide)
     (by norm_num [PyNum.toRat]),
   claim_C8_sold_qty_sign.2 Cell.empty (by decide)⟩

/-! ### Claim C5: missing-column short circuit -/

/-- C5: when any of the five canonical columns is still missing after header
detection, trimming and aliasing, the transformation short-circuits — the
output document holds only the canonical header row and the summary is
`(0, 0)` (a data condition, not an exception: the embedded pipeline is a
total function); in particular an input missing the `UOM` column entirely
yields the header-only document and the `(0, 0)` summary, which the
decision logic turns into the alert path. -/
theorem claim_C5_missing_column_short_circuit :
    (∀ table : List (List Cell), missingCols table ≠ [] →
        clean_and_reduce table = (.headerOnly CANON5, 0, 0)) ∧
    clean_and_reduce
        [[.str "SKU", .str "Description", .str "Category", .str "Group",
          .str "Sold QTY"],
         [.int 1001, .str "Vodka", .str "Spirits", .str "G", .int 3]] =
      (.headerOnly CANON5, 0, 0) ∧
    decideNotification 0 0 = .alert "No product rows found after cleaning." := by
  refine ⟨?_, by decide, by decide⟩
  intro table h
  rw [clean_and_reduce, if_pos h]

/-- Witness for C5: the short-circuit clause applied to a one-row table
whose header covers none of the canonical columns. -/
theorem claim_C5_missing_column_short_circuit_witness :
    clean_and_reduce [[.str "Description"]] = (.headerOnly CANON5, 0, 0) :=
  claim_C5_missing_column_short_circuit.1 [[.str "Description"]] (by decide)

/-! ### Lemmas: first-seen grouping -/

theorem firstSeenAux_mem (l : List String) :
    ∀ (seen : List String) (x : String),
      x ∈ firstSeenAux seen l ↔ x ∈ l ∧ x ∉ seen := by
  induction l with
  | nil => intro seen x; simp [firstSeenAux]
  | cons c rest ih =>
    intro seen x
    by_cases hc : seen.contains c = true
    · have hc' : c ∈ seen := by simpa using hc
      rw [firstSeenAux, if_pos hc, ih seen x]
      constructor
      · rintro ⟨h1, h2⟩
        exact ⟨List.mem_cons_of_mem _ h1, h2⟩
      · rintro ⟨h1, h2⟩
        rcases List.mem_cons.1 h1 with rfl | h1'
        · exact absurd hc' h2
        · exact ⟨h1', h2⟩
    · have hc' : c ∉ seen := by simpa using hc
      rw [firstSeenAux, if_neg hc]
      rw [List.mem_cons, ih (c :: seen) x]
      constructor
      · rintro (rfl | ⟨h1, h2⟩)
        · exact ⟨List.mem_cons_self _ _, hc'⟩
        · exact ⟨List.mem_cons_of_mem _ h1,
            fun hx => h2 (List.mem_cons_of_mem _ hx)⟩
      · rintro ⟨h1, h2⟩
        by_cases hxc : x = c
        · exact Or.inl hxc
        · rcases List.mem_cons.1 h1 with rfl | h1'
          · exact absurd rfl hxc
          · refine Or.inr ⟨h1', fun hx => ?_⟩
            rcases List.mem_cons.1 hx with rfl | hx'
            · exact hxc rfl
            · exact h2 hx'

theorem firstSeenAux_nodup (l : List String) :
    ∀ seen : List String, (firstSeenAux seen l).Nodup := by
  induction l with
  | nil => intro seen; simp [firstSeenAux]
  | cons c rest ih =>
    intro seen
    by_cases hc : seen.contains c = true
    · rw [firstSeenAux, if_pos hc]
      exact ih seen
    · rw [firstSeenAux, if_neg hc]
      refine List.nodup_cons.2 ⟨fun hmem => ?_, ih (c :: seen)⟩
      exact ((firstSeenAux_mem rest (c :: seen) c).1 hmem).2
        (List.mem_cons_self _ _)

theorem firstSeenAux_pairwise (l : List String) :
    ∀ seen : List String,
      (firstSeenAux seen l).Pairwise
        (fun a b => l.indexOf a < l.indexOf b) := by
  induction l with
  | nil => intro seen; simp [firstSeenAux]
  | cons c rest ih =>
    intro seen
    by_cases hc : seen.contains c = true
    · have hc' : c ∈ seen := by simpa using hc
      rw [firstSeenAux, if_pos hc]
      refine (ih seen).imp_of_mem ?_
      intro a b ha hb hab
      have hane : a ≠ c :=
        fun h => ((firstSeenAux_mem rest seen a).1 ha).2 (h ▸ hc')
      have hbne : b ≠ c :=
        fun h => ((firstSeenAux_mem rest seen b).1 hb).2 (h ▸ hc')
      rw [List.indexOf_cons_ne _ hane.symm, List.indexOf_cons_ne _ hbne.symm]
      omega
    · rw [firstSeenAux, if_neg hc]
      refine List.pairwise_cons.2 ⟨?_, ?_⟩
      · intro b hb
        have hbne : b ≠ c := fun h =>
          ((firstSeenAux_mem rest (c :: seen) b).1 hb).2
            (h ▸ List.mem_cons_self _ _)
        rw [List.indexOf_cons_self, List.indexOf_cons_ne _ hbne.symm]
        omega
      · refine (ih (c :: seen)).imp_of_mem ?_
        intro a b ha hb hab
        have hane : a ≠ c := fun h =>
          ((firstSeenAux_mem rest (c :: seen) a).1 ha).2
            (h ▸ List.mem_cons_self _ _)
        have hbne : b ≠ c := fun h =>
          ((firstSeenAux_mem rest (c :: seen) b).1 hb).2
            (h ▸ List.mem_cons_self _ _)
        rw [List.indexOf_cons_ne _ hane.symm, List.indexOf_cons_ne _ hbne.symm]
        omega

theorem firstSeen_mem (l : List String) (x : String) :
    x ∈ firstSeen l ↔ x ∈ l := by
  rw [firstSeen, firstSeenAux_mem l [] x]
  simp

theorem firstSeen_nodup (l : List String) : (firstSeen l).Nodup :=
  firstSeenAux_nodup l []

theorem firstSeen_pairwise (l : List String) :
    (firstSeen l).Pairwise (fun a b => l.indexOf a < l.indexOf b) :=
  firstSeenAux_pairwise l []

theorem groupByCategory_keys (rows : List ProdRow) :
    (groupByCategory rows).map Prod.fst =
      firstSeen (rows.map (·.category)) := by
  simp only [groupByCategory, List.map_map]
  have hcomp : (Prod.fst ∘ fun c : String =>
      (c, rows.filter (fun r => r.category == c))) = id := rfl
  rw [hcomp, List.map_id]

/-! ### Claim C6: grouping order -/

/-- C6: grouping orders the category groups by the first appearance of each
category in the filtered, coerced row set — the group keys are pairwise
ordered by first-occurrence index, cover exactly the categories present,
and repeat none — and within each group the original relative row order is
preserved (each group is the original sublist with that category); for
every row set carrying categories in order `[B, A, B, C]` the group order
is `[B, A, C]`. -/
theorem claim_C6_grouping_first_seen_order :
    (∀ rows : List ProdRow,
        ((groupByCategory rows).map Prod.fst).Pairwise
          (fun a b => (rows.map (·.category)).indexOf a <
            (rows.map (·.category)).indexOf b)) ∧
    (∀ (rows : List ProdRow) (c : String),
        c ∈ (groupByCategory rows).map Prod.fst ↔
          c ∈ rows.map (·.category)) ∧
    (∀ rows : List ProdRow, ((groupByCategory rows).map Prod.fst).Nodup) ∧
    (∀ (rows : List ProdRow) (c : String) (g : List ProdRow),
        (c, g) ∈ groupByCategory rows →
          g = rows.filter (fun r => r.category == c) ∧ g.Sublist rows) ∧
    (∀ rows : List ProdRow, rows.map (·.category) = ["B", "A", "B", "C"] →
        (groupByCategory rows).map Prod.fst = ["B", "A", "C"]) := by
  refine ⟨?_, ?_, ?_, ?_, ?_⟩
  · intro rows
    rw [groupByCategory_keys]
    exact firstSeen_pairwise _
  · intro rows c
    rw [groupByCategory_keys]
    exact firstSeen_mem _ c
  · intro rows
    rw [groupByCategory_keys]
    exact firstSeen_nodup _
  · intro rows c g hmem
    rcases List.mem_map.1 hmem with ⟨c', hc', heq⟩
    obtain ⟨rfl, rfl⟩ : c' = c ∧ (rows.filter (fun r => r.category == c')) = g := by
      constructor
      · exact congrArg Prod.fst heq
      · exact congrArg Prod.snd heq
    exact ⟨rfl, List.filter_sublist _⟩
  · intro rows h
    rw [groupByCategory_keys, h]
    decide

/-- Witness for C6: a four-row set with categories `[B, A, B, C]` groups in
the order `[B, A, C]`, and the `"B"` group is the filtered sublist. -/
theorem claim_C6_grouping_first_seen_order_witness :
    (groupByCategory
        [⟨"1", .empty, "B", .empty, 1⟩, ⟨"2", .empty, "A", .empty, 2⟩,
         ⟨"3", .empty, "B", .empty, 3⟩, ⟨"4", .empty, "C", .empty, 4⟩]).map
      Prod.fst = ["B", "A", "C"] ∧
    ([⟨"1", .empty, "B", .empty, 1⟩, ⟨"3", .empty, "B", .empty, 3⟩]
        : List ProdRow) =
      ([⟨"1", .empty, "B", .empty, 1⟩, ⟨"2", .empty, "A", .empty, 2⟩,
        ⟨"3", .empty, "B", .empty, 3⟩,
        ⟨"4", .empty, "C", .empty, 4⟩] : List ProdRow).filter
        (fun r => r.category == "B") :=
  ⟨claim_C6_grouping_first_seen_order.2.2.2.2
      [⟨"1", .empty, "B", .empty, 1⟩, ⟨"2", .empty, "A", .empty, 2⟩,
       ⟨"3", .empty, "B", .empty, 3⟩, ⟨"4", .empty, "C", .empty, 4⟩]
      (by decide),
   (claim_C6_grouping_first_seen_order.2.2.2.1
      [⟨"1", .empty, "B", .empty, 1⟩, ⟨"2", .empty, "A", .empty, 2⟩,
       ⟨"3", .empty, "B", .empty, 3⟩, ⟨"4", .empty, "C", .empty, 4⟩]
      "B"
      [⟨"1", .empty, "B", .empty, 1⟩, ⟨"3", .empty, "B", .empty, 3⟩]
      (by decide)).1⟩

/-! ### Lemmas: partition counting -/

theorem sum_map_add {α : Type} (l : List α) (f g : α → Nat) :
    (l.map fun x => f x + g x).sum = (l.map f).sum + (l.map g).sum := by
  induction l with
  | nil => simp
  | cons a t ih =>
    simp only [List.map_cons, List.sum_cons, ih]
    omega

theorem sum_indicator_one (x : String) :
    ∀ keys : List String, keys.Nodup → x ∈ keys →
      (keys.map (fun c => if x == c then 1 else 0)).sum = 1 := by
  intro keys
  induction keys with
  | nil => intro _ hx; simp at hx
  | cons k ks ih =>
    intro hnd hx
    rw [List.nodup_cons] at hnd
    rcases List.mem_cons.1 hx with rfl | hx'
    · have h0 : (ks.map (fun c => if x == c then 1 else 0)).sum = 0 := by
        apply List.sum_eq_zero
        intro y hy
        rcases List.mem_map.1 hy with ⟨c, hc, rfl⟩
        have hne : ¬(x == c) = true := by
          intro hbeq
          exact hnd.1 ((eq_of_beq hbeq) ▸ hc)
        simp [hne]
      rw [List.map_cons, List.sum_cons, if_pos (by simp : (x == x) = true), h0]
    · have hne : ¬(x == k) = true := by
        intro hbeq
        exact hnd.1 ((eq_of_beq hbeq) ▸ hx')
      rw [List.map_cons, List.sum_cons, if_neg hne, ih hnd.2 hx']

theorem sum_length_filter_partition {α : Type} (k : α → String)
    (keys : List String) (hnd : keys.Nodup) :
    ∀ rows : List α, (∀ r ∈ rows, k r ∈ keys) →
      (keys.map (fun c => (rows.filter (fun r => k r == c)).length)).sum
        = rows.length := by
  intro rows
  induction rows with
  | nil => intro _; simp
  | cons r rest ih =>
    intro hcov
    have hcr : k r ∈ keys := hcov r (List.mem_cons_self _ _)
    have hrest : ∀ x ∈ rest, k x ∈ keys :=
      fun x hx => hcov x (List.mem_cons_of_mem _ hx)
    have hfilter : ∀ c : String,
        ((r :: rest).filter (fun x => k x == c)).length
          = (if k r == c then 1 else 0)
            + (rest.filter (fun x => k x == c)).length := by
      intro c
      rw [List.filter_cons]
      by_cases hc : (k r == c) = true
      · rw [if_pos hc, if_pos hc, List.length_cons]
        omega
      · rw [if_neg hc, if_neg hc]
        omega
    calc (keys.map
          (fun c => ((r :: rest).filter (fun x => k x == c)).length)).sum
        = (keys.map (fun c => (if k r == c then 1 else 0)
            + (rest.filter (fun x => k x == c)).length)).sum := by
          congr 1
          exact List.map_congr_left (fun c _ => hfilter c)
      _ = (keys.map (fun c => if k r == c then 1 else 0)).sum
          + (keys.map
              (fun c => (rest.filter (fun x => k x == c)).length)).sum :=
          sum_map_add _ _ _
      _ = 1 + rest.length := by
          rw [sum_indicator_one (k r) keys hnd hcr, ih hrest]
      _ = (r :: rest).length := by
          rw [List.length_cons]
          omega

/-! ### Claim C7: group totals and the summary counts -/

/-- C7: in every rendered grouped report, each section's total line equals
the sum of that section's Sold QTY values, the returned `rows_total` is the
size of the post-coercion, category-valid row set (the sections' combined
row count), and `rows_with_qty_gt0` is the count of rows with Sold QTY > 0
over all sections combined. -/
theorem claim_C7_group_totals_and_summary :
    ∀ (table : List (List Cell)) (secs : List GroupSection) (rt rq : Nat),
      clean_and_reduce table = (.grouped secs, rt, rq) →
        (∀ s ∈ secs, s.total = (s.rows.map (·.qty)).sum) ∧
        rt = (secs.map (fun s => s.rows.length)).sum ∧
        rq = (secs.map
            (fun s => (s.rows.filter (fun r => 0 < r.qty)).length)).sum := by
  intro table secs rt rq h
  rw [clean_and_reduce] at h
  by_cases hm : missingCols table ≠ []
  · rw [if_pos hm] at h
    exact absurd h (by simp)
  · rw [if_neg hm] at h
    have h1 : Document.grouped (renderSections (prodRows table))
        = Document.grouped secs := congrArg Prod.fst h
    have hsecs : renderSections (prodRows table) = secs :=
      Document.grouped.inj h1
    have h2 : (prodRows table).length = rt := congrArg (fun p => p.2.1) h
    have h3 : ((prodRows table).filter (fun r => 0 < r.qty)).length = rq :=
      congrArg (fun p => p.2.2) h
    subst hsecs
    subst h2
    subst h3
    set prod := prodRows table with hprod
    set keys := firstSeen (prod.map (·.category)) with hkeys
    have hnd : keys.Nodup := firstSeen_nodup _
    have hcov : ∀ r ∈ prod, r.category ∈ keys := by
      intro r hr
      rw [hkeys]
      exact (firstSeen_mem _ _).2 (List.mem_map_of_mem _ hr)
    refine ⟨?_, ?_, ?_⟩
    · intro s hs
      rcases List.mem_map.1 hs with ⟨p, hp, rfl⟩
      rfl
    · have hmap : (renderSections prod).map (fun s => s.rows.length)
          = keys.map
              (fun c => (prod.filter (fun r => r.category == c)).length) := by
        simp only [renderSections, groupByCategory, List.map_map]
        rfl
      rw [hmap]
      exact (sum_length_filter_partition (·.category) keys hnd prod hcov).symm
    · have hq : ∀ c : String,
          ((prod.filter (fun r => r.category == c)).filter
              (fun r => 0 < r.qty))
            = ((prod.filter (fun r => 0 < r.qty)).filter
                (fun r => r.category == c)) := by
        intro c
        rw [List.filter_filter, List.filter_filter]
        exact List.filter_congr (fun a ha => by rw [Bool.and_comm])
      have hmap2 : (renderSections prod).map
            (fun s => (s.rows.filter (fun r => 0 < r.qty)).length)
          = keys.map (fun c =>
              (((prod.filter (fun r => 0 < r.qty))).filter
                (fun r => r.category == c)).length) := by
        simp only [renderSections, groupByCategory, List.map_map]
        refine List.map_congr_left ?_
        intro c _
        exact congrArg List.length (hq c)
      rw [hmap2]
      have hcov2 : ∀ r ∈ prod.filter (fun r => 0 < r.qty),
          r.category ∈ keys := by
        intro r hr
        exact hcov r (List.mem_filter.1 hr).1
      exact (sum_length_filter_partition (fun r : ProdRow => r.category)
        keys hnd _ hcov2).symm

/-- Witness for C7: on the one-product table the returned counts equal the
sums over the single rendered section. -/
theorem claim_C7_group_totals_and_summary_witness :
    (1 : Nat) = ([GroupSection.mk "Spirits"
        [⟨"1001", .str "Vodka 750ml", "Spirits", .str "EA", 12⟩] 12].map
        (fun s => s.rows.length)).sum ∧
    (1 : Nat) = ([GroupSection.mk "Spirits"
        [⟨"1001", .str "Vodka 750ml", "Spirits", .str "EA", 12⟩] 12].map
        (fun s => (s.rows.filter (fun r => 0 < r.qty)).length)).sum := by
  have h := claim_C7_group_totals_and_summary
    [[.str "SKU", .str "Description", .str "Category", .str "Group",
      .str "UOM", .str "Sold Qty"],
     [.str "Total Beer", .empty, .empty, .empty, .empty, .empty],
     [.int 1001, .str "Vodka 750ml", .str "Spirits", .str "G", .str "EA",
      .str "$12.00"]]
    [GroupSection.mk "Spirits"
      [⟨"1001", .str "Vodka 750ml", "Spirits", .str "EA", 12⟩] 12]
    1 1 (by decide)
  exact ⟨h.2.1, h.2.2⟩

end Barnet
